import Mathlib

/-!
Shallow embedding of the game-state engine of the dutcht repository: the
card/deck model and scoring (src/types/game.ts), the per-viewer redaction of
the stored game state (the get-game-state edge function), the game-action
edge function with its turn/authorization guard and the draw, swap and
discard transitions, the client-side deal, end-memorizing and call-dutch
operations (src/hooks/useGameState.ts, src/pages/GameRoom.tsx), and a
small-step protocol relation tying them together.
-/

namespace Dutch

/-- Suits of a standard deck (src/types/game.ts, type Suit). -/
inductive Suit
  | hearts
  | diamonds
  | clubs
  | spades
deriving DecidableEq

/-- Ranks of a standard deck (src/types/game.ts, type Rank: A,2..10,J,Q,K). -/
inductive Rank
  | ace
  | two
  | three
  | four
  | five
  | six
  | seven
  | eight
  | nine
  | ten
  | jack
  | queen
  | king
deriving DecidableEq

/-- A playing card (src/types/game.ts, interface Card; the id field is the
derived token rank-suit and carries no further information, so it is omitted). -/
structure Card where
  suit : Suit
  rank : Rank
deriving DecidableEq

instance : Inhabited Card := ⟨⟨Suit.hearts, Rank.ace⟩⟩

/-- Player identities are the uuid strings of auth users. -/
abbrev PlayerId := String

/-- Game phase (game_state.phase check constraint and GameState type). -/
inductive Phase
  | memorizing
  | playing
  | dutch_round
  | finished
deriving DecidableEq

/-- Room status (rooms.status check constraint). -/
inductive RoomStatus
  | waiting
  | playing
  | finished
deriving DecidableEq

/-- The room columns the game engine reads and writes (rooms table). -/
structure Room where
  status : RoomStatus
  current_turn : Option PlayerId
  dutch_caller : Option PlayerId
deriving DecidableEq

/-- The stored game state row (game_state table / interface GameStateRow).
Records keyed by player id are embedded as association lists in insertion
order; the timestamp column updated_at is informational and omitted. -/
structure GameStateRow where
  phase : Phase
  deck : List Card
  discard_pile : List Card
  player_hands : List (PlayerId × List Card)
  revealed_cards : List (PlayerId × List Nat)
deriving DecidableEq

/-- Lookup in a record embedded as an association list (JS record access). -/
def lookupA {α : Type} : List (PlayerId × α) → PlayerId → Option α
  | [], _ => none
  | e :: es, k => if e.1 = k then some e.2 else lookupA es k

/-- Record update written as a JS spread with one key overridden: the first
entry with the key is replaced in place, a missing key is appended. -/
def setA {α : Type} : List (PlayerId × α) → PlayerId → α → List (PlayerId × α)
  | [], k, v => [(k, v)]
  | e :: es, k, v => if e.1 = k then (k, v) :: es else e :: setA es k v

/-- One entry of the filtered player_hands record returned by the
get-game-state edge function: the cards are null for everyone but the viewer. -/
structure HandView where
  cards : Option (List Card)
  cardCount : Nat
deriving DecidableEq

/-- The redacted state returned to a room member by get-game-state
(safeGameState in the source): deck count instead of deck contents. -/
structure SafeGameState where
  phase : Phase
  deck_count : Nat
  discard_pile : List Card
  player_hands : List (PlayerId × HandView)
  revealed_cards : List (PlayerId × List Nat)
deriving DecidableEq

/-- filteredPlayerHands of the get-game-state edge function: the viewer gets
their own cards in full, every other player only the card count. -/
def filteredPlayerHands (viewer : PlayerId) (hands : List (PlayerId × List Card)) :
    List (PlayerId × HandView) :=
  hands.map (fun e =>
    if e.1 = viewer then (e.1, HandView.mk (some e.2) e.2.length)
    else (e.1, HandView.mk none e.2.length))

/-- filteredRevealedCards of the get-game-state edge function: only during the
memorizing phase, and only the viewer's own revealed set. -/
def filteredRevealedCards (viewer : PlayerId) (phase : Phase)
    (revealed : List (PlayerId × List Nat)) : List (PlayerId × List Nat) :=
  if phase = Phase.memorizing then
    match lookupA revealed viewer with
    | some r => [(viewer, r)]
    | none => []
  else []

/-- The per-viewer projection assembled by the get-game-state edge function
(the safeGameState object in the source). -/
def projectFor (viewer : PlayerId) (gs : GameStateRow) : SafeGameState :=
  { phase := gs.phase
    deck_count := gs.deck.length
    discard_pile := gs.discard_pile
    player_hands := filteredPlayerHands viewer gs.player_hands
    revealed_cards := filteredRevealedCards viewer gs.phase gs.revealed_cards }

/-- Claim C1: in every phase, the redacted view computed for a viewer V
withholds the card contents of every player O distinct from V (the hand entry
for O has cards = none and only its cardCount populated, with the true hand
length), while V's own entry carries V's full card list. -/
theorem projectFor_redacts (V : PlayerId) (gs : GameStateRow) :
    (∀ e ∈ (projectFor V gs).player_hands, e.1 ≠ V → e.2.cards = none) ∧
    (∀ O h, (O, h) ∈ gs.player_hands → O ≠ V →
      (O, HandView.mk none h.length) ∈ (projectFor V gs).player_hands) ∧
    (∀ h, (V, h) ∈ gs.player_hands →
      (V, HandView.mk (some h) h.length) ∈ (projectFor V gs).player_hands) := by
  refine ⟨?_, ?_, ?_⟩
  · intro e he hne
    simp only [projectFor, filteredPlayerHands, List.mem_map] at he
    obtain ⟨a, _, hfa⟩ := he
    by_cases hv : a.1 = V
    · rw [if_pos hv] at hfa
      subst hfa
      exact absurd hv hne
    · rw [if_neg hv] at hfa
      subst hfa
      rfl
  · intro O h hmem hne
    simp only [projectFor, filteredPlayerHands, List.mem_map]
    exact ⟨(O, h), hmem, by simp [hne]⟩
  · intro h hmem
    simp only [projectFor, filteredPlayerHands, List.mem_map]
    exact ⟨(V, h), hmem, by simp⟩

/-- A concrete two-player game state used to instantiate the redaction claim. -/
def gsC1 : GameStateRow :=
  { phase := Phase.playing
    deck := [⟨Suit.clubs, Rank.five⟩]
    discard_pile := [⟨Suit.spades, Rank.nine⟩]
    player_hands :=
      [("alice", [⟨Suit.hearts, Rank.ace⟩]),
       ("bob", [⟨Suit.diamonds, Rank.king⟩, ⟨Suit.clubs, Rank.two⟩])]
    revealed_cards := [] }

/-- Witness for claim C1: on a concrete state, the view computed for alice
holds bob's entry with cards withheld and only the count, and alice's own
entry with her full hand. -/
theorem projectFor_redacts_witness :
    ("bob", HandView.mk none 2) ∈ (projectFor "alice" gsC1).player_hands ∧
    ("alice", HandView.mk (some [⟨Suit.hearts, Rank.ace⟩]) 1) ∈
      (projectFor "alice" gsC1).player_hands := by
  constructor
  · exact (projectFor_redacts "alice" gsC1).2.1 "bob"
      [⟨Suit.diamonds, Rank.king⟩, ⟨Suit.clubs, Rank.two⟩] (by decide) (by decide)
  · exact (projectFor_redacts "alice" gsC1).2.2 [⟨Suit.hearts, Rank.ace⟩] (by decide)

/-- The 52-card deck before shuffling (createDeck in src/types/game.ts:
suits outer loop, ranks inner loop). -/
def fullDeck : List Card :=
  [Suit.hearts, Suit.diamonds, Suit.clubs, Suit.spades].flatMap (fun s =>
    [Rank.ace, Rank.two, Rank.three, Rank.four, Rank.five, Rank.six, Rank.seven,
     Rank.eight, Rank.nine, Rank.ten, Rank.jack, Rank.queen, Rank.king].map
      (fun r => ⟨s, r⟩))

/-- Exchange the elements at positions i and j (the destructuring swap inside
shuffleDeck); out-of-range positions leave the list unchanged. -/
def swapAt (l : List Card) (i j : Nat) : List Card :=
  match l.get? i, l.get? j with
  | some a, some b => (l.set i b).set j a
  | _, _ => l

/-- The Fisher-Yates loop of shuffleDeck: i runs from n down to 1 and the
element at i is exchanged with the one at the sampled position rand i % (i+1),
the model of Math.floor(Math.random() * (i + 1)). -/
def fyLoop (rand : Nat → Nat) : Nat → List Card → List Card
  | 0, l => l
  | i + 1, l => fyLoop rand i (swapAt l (i + 1) (rand (i + 1) % (i + 2)))

/-- shuffleDeck of src/types/game.ts, with the random source made explicit. -/
def shuffleDeck (rand : Nat → Nat) (deck : List Card) : List Card :=
  fyLoop rand (deck.length - 1) deck

/-- createDeck of src/types/game.ts: a freshly shuffled full deck. -/
def createDeck (rand : Nat → Nat) : List Card :=
  shuffleDeck rand fullDeck

theorem swapAt_length (l : List Card) (i j : Nat) :
    (swapAt l i j).length = l.length := by
  unfold swapAt
  cases hi : l.get? i <;> cases hj : l.get? j <;> simp

theorem fyLoop_length (rand : Nat → Nat) :
    ∀ (n : Nat) (l : List Card), (fyLoop rand n l).length = l.length := by
  intro n
  induction n with
  | zero => intro l; rfl
  | succ k ih =>
    intro l
    show (fyLoop rand k (swapAt l (k + 1) (rand (k + 1) % (k + 2)))).length = l.length
    rw [ih, swapAt_length]

theorem createDeck_length (rand : Nat → Nat) : (createDeck rand).length = 52 := by
  show (fyLoop rand (fullDeck.length - 1) fullDeck).length = 52
  rw [fyLoop_length]
  decide

/-- The dealing loop of initializeGame (src/hooks/useGameState.ts): each player
in order receives deck.slice(deckIndex, deckIndex + 4) and deckIndex advances
by 4. -/
def dealHands (deck : List Card) : List PlayerId → Nat → List (PlayerId × List Card)
  | [], _ => []
  | p :: ps, i => (p, (deck.drop i).take 4) :: dealHands deck ps (i + 4)

/-- initializeGame of src/hooks/useGameState.ts: refuses fewer than two
players; deals 4 cards to each player from the deck front, seeds the discard
pile with the next card, keeps the rest as the deck, reveals indices 0 and 3
to every player, and starts in the memorizing phase. -/
def initializeGame (deck : List Card) (players : List PlayerId) : Option GameStateRow :=
  if players.length < 2 then none
  else
    some { phase := Phase.memorizing
           deck := deck.drop (4 * players.length + 1)
           discard_pile := (deck.drop (4 * players.length)).take 1
           player_hands := dealHands deck players 0
           revealed_cards := players.map (fun p => (p, [0, 3])) }

/-- Sum of the hand sizes over a player_hands record. -/
def handsTotal (hands : List (PlayerId × List Card)) : Nat :=
  (hands.map (fun e => e.2.length)).sum

/-- Cards in the deck plus the discard pile plus all hands. -/
def totalCards (gs : GameStateRow) : Nat :=
  gs.deck.length + gs.discard_pile.length + handsTotal gs.player_hands

theorem handsTotal_cons (e : PlayerId × List Card) (es : List (PlayerId × List Card)) :
    handsTotal (e :: es) = e.2.length + handsTotal es := by
  simp [handsTotal]

theorem handsTotal_dealHands (deck : List Card) :
    ∀ (ps : List PlayerId) (i : Nat), i + 4 * ps.length ≤ deck.length →
      handsTotal (dealHands deck ps i) = 4 * ps.length := by
  intro ps
  induction ps with
  | nil => intro i _; rfl
  | cons p ps ih =>
    intro i hle
    rw [List.length_cons] at hle
    have h1 : ((deck.drop i).take 4).length = 4 := by
      rw [List.length_take, List.length_drop]
      omega
    have h2 : handsTotal (dealHands deck ps (i + 4)) = 4 * ps.length :=
      ih (i + 4) (by omega)
    have h3 : dealHands deck (p :: ps) i
        = (p, (deck.drop i).take 4) :: dealHands deck ps (i + 4) := rfl
    rw [h3, handsTotal_cons, h1, h2, List.length_cons]
    omega

theorem totalCards_initializeGame (deck : List Card) (players : List PlayerId)
    (gs : GameStateRow) (hlen : deck.length = 52)
    (h2 : 2 ≤ players.length) (h6 : players.length ≤ 6)
    (hinit : initializeGame deck players = some gs) :
    totalCards gs = 52 := by
  unfold initializeGame at hinit
  rw [if_neg (by omega)] at hinit
  injection hinit with hinit
  subst hinit
  show (deck.drop (4 * players.length + 1)).length
      + ((deck.drop (4 * players.length)).take 1).length
      + handsTotal (dealHands deck players 0) = 52
  rw [List.length_drop, List.length_take, List.length_drop,
    handsTotal_dealHands deck players 0 (by omega)]
  omega

/-- parseInt on the numeric rank strings; in getCardValue this branch is only
reached for the ranks 2..10 (A, J, Q and K are dispatched before it). -/
def rankFace : Rank → Int
  | Rank.two => 2
  | Rank.three => 3
  | Rank.four => 4
  | Rank.five => 5
  | Rank.six => 6
  | Rank.seven => 7
  | Rank.eight => 8
  | Rank.nine => 9
  | Rank.ten => 10
  | _ => 0

/-- getCardValue of src/types/game.ts: black kings 0, red kings -1, ace 1,
jack and queen 10, otherwise the parsed face value. -/
def getCardValue (card : Card) : Int :=
  if card.rank = Rank.king then
    if card.suit = Suit.spades ∨ card.suit = Suit.clubs then 0 else -1
  else if card.rank = Rank.ace then 1
  else if card.rank = Rank.jack ∨ card.rank = Rank.queen then 10
  else rankFace card.rank

/-- calculateScore of src/types/game.ts: reduce with + over the hand,
starting from 0. -/
def calculateScore (cards : List Card) : Int :=
  cards.foldl (fun total card => total + getCardValue card) 0

/-- The scoring table exactly as the specification words it: 1 for an ace,
face value for 2..10, 10 for jack and queen, 0 for a black king, -1 for a
red king. -/
def specCardValue (card : Card) : Int :=
  match card.rank with
  | Rank.ace => 1
  | Rank.two => 2
  | Rank.three => 3
  | Rank.four => 4
  | Rank.five => 5
  | Rank.six => 6
  | Rank.seven => 7
  | Rank.eight => 8
  | Rank.nine => 9
  | Rank.ten => 10
  | Rank.jack => 10
  | Rank.queen => 10
  | Rank.king =>
    if card.suit = Suit.hearts ∨ card.suit = Suit.diamonds then -1 else 0

theorem foldl_add_getCardValue (l : List Card) :
    ∀ a : Int, l.foldl (fun total card => total + getCardValue card) a
      = a + (l.map getCardValue).sum := by
  induction l with
  | nil => intro a; simp
  | cons x xs ih =>
    intro a
    simp only [List.foldl_cons, List.map_cons, List.sum_cons, ih, add_assoc]

/-- Claim C9: the scoring value function agrees with the specified table
(ace 1, 2..10 face value, jack and queen 10, black king 0, red king -1), and
the hand score is the sum of the card values over the hand. -/
theorem scoring_correct :
    (∀ c : Card, getCardValue c = specCardValue c) ∧
    (∀ cards : List Card, calculateScore cards = (cards.map getCardValue).sum) := by
  constructor
  · intro c
    obtain ⟨s, r⟩ := c
    cases s <;> cases r <;> rfl
  · intro cards
    show cards.foldl (fun total card => total + getCardValue card) 0
        = (cards.map getCardValue).sum
    rw [foldl_add_getCardValue]
    omega

/-- Action kinds accepted by the game-action edge function. -/
inductive ActionType
  | draw
  | swap
  | discard
deriving DecidableEq

/-- Where a card was drawn from. -/
inductive Source
  | deck
  | discard
deriving DecidableEq

/-- The request body of the game-action edge function (ActionPayload plus the
client-echoed drawn_card and drawn_source used by swap and discard). -/
structure ActionPayload where
  action : ActionType
  source : Option Source
  hand_index : Option Int
  drawn_card : Option Card
  drawn_source : Option Source
deriving DecidableEq

/-- Error classes of the rejection responses (spec taxonomy): the 403 paths
are unauthorized, the not-playing 400 is invalidState, the empty-pile 400 is
resourceExhausted, the malformed-field 400s are validation. -/
inductive GameError
  | unauthorized
  | invalidState
  | resourceExhausted
  | validation
deriving DecidableEq

/-- Action kinds recorded in the game_actions log. -/
inductive LogAction
  | draw
  | swap
  | discard
  | dutch
deriving DecidableEq

/-- One game_actions row (room and timestamp columns omitted). -/
structure LogEntry where
  player : PlayerId
  action_type : LogAction
deriving DecidableEq

/-- The server-side data the game engine touches for one room: the ordered
member list (room_players by position), the room row, the game_state row and
the game_actions log. -/
structure ServerState where
  members : List PlayerId
  room : Room
  gs : GameStateRow
  log : List LogEntry
deriving DecidableEq

/-- The pile named by a draw source. -/
def pileOf (gs : GameStateRow) : Source → List Card
  | Source.deck => gs.deck
  | Source.discard => gs.discard_pile

/-- Position of a player in the member list; none when absent
(JS findIndex returning -1). -/
def findIdxA : List PlayerId → PlayerId → Option Nat
  | [], _ => none
  | x :: xs, c => if x = c then some 0 else (findIdxA xs c).map (fun j => j + 1)

/-- The next-player index computed by advanceTurn:
(currentIndex + 1) % playerCount, where a missing or null current player has
findIndex -1 and hence next index 0. -/
def nextIndexOf (members : List PlayerId) (cur : Option PlayerId) : Nat :=
  match cur with
  | none => 0
  | some c =>
    match findIdxA members c with
    | some i => (i + 1) % members.length
    | none => 0

/-- advanceTurn of the game-action edge function: computes the next player in
position order; if a dutch caller is set and the next player is the caller,
the phase and the room status become finished and the turn is not moved;
otherwise the turn moves to the next player. An empty member list returns
unchanged. The informational turn_started_at timestamp is omitted. -/
def advanceTurn (st : ServerState) : ServerState :=
  if st.members = [] then st
  else if st.room.dutch_caller
      = some (st.members.getD (nextIndexOf st.members st.room.current_turn) "") then
    { st with gs := { st.gs with phase := Phase.finished }
              room := { st.room with status := RoomStatus.finished } }
  else
    { st with room := { st.room with
        current_turn :=
          some (st.members.getD (nextIndexOf st.members st.room.current_turn) "") } }

/-- The game_state update of the swap case: the drawn card replaces the hand
card at the given index; the displaced card is appended to the discard pile
when the drawn card came from the deck (which also loses its last element),
and replaces the discard top when it came from the discard pile. -/
def applySwapState (gs : GameStateRow) (uid : PlayerId) (i : Nat) (dc : Card)
    (ds : Source) : GameStateRow :=
  let myHand := (lookupA gs.player_hands uid).getD []
  let swapped := myHand.getD i default
  let newHands := setA gs.player_hands uid (myHand.set i dc)
  match ds with
  | Source.deck =>
    { gs with deck := gs.deck.dropLast
              discard_pile := gs.discard_pile ++ [swapped]
              player_hands := newHands }
  | Source.discard =>
    { gs with discard_pile := gs.discard_pile.dropLast ++ [swapped]
              player_hands := newHands }

/-- The game_state update of the discard case: a card drawn from the deck
moves onto the discard pile; a card drawn from the discard pile stays where
it was. -/
def applyDiscardState (gs : GameStateRow) (dc : Card) (ds : Source) : GameStateRow :=
  match ds with
  | Source.deck =>
    { gs with deck := gs.deck.dropLast, discard_pile := gs.discard_pile ++ [dc] }
  | Source.discard => gs

/-- The game-action edge function after authentication: membership check, turn
check and status check in source order, then the draw, swap or discard branch.
Every rejection leaves the stored state untouched; draw only logs and returns
the top of the named pile; swap and discard commit their update, log, and then
advance the turn. -/
def runAction (st : ServerState) (uid : PlayerId) (p : ActionPayload) :
    ServerState × Except GameError (Option Card) :=
  if uid ∈ st.members then
    if st.room.current_turn = some uid then
      if st.room.status = RoomStatus.playing then
        match p.action with
        | ActionType.draw =>
          match p.source with
          | none => (st, Except.error GameError.validation)
          | some src =>
            match (pileOf st.gs src).getLast? with
            | none => (st, Except.error GameError.resourceExhausted)
            | some c =>
              ({ st with log := st.log ++ [⟨uid, LogAction.draw⟩] },
               Except.ok (some c))
        | ActionType.swap =>
          match p.hand_index with
          | none => (st, Except.error GameError.validation)
          | some hi =>
            if hi < 0 then (st, Except.error GameError.validation)
            else
              match p.drawn_card, p.drawn_source with
              | some dc, some ds =>
                if ((lookupA st.gs.player_hands uid).getD []).length ≤ hi.toNat then
                  (st, Except.error GameError.validation)
                else
                  (advanceTurn
                    { st with gs := applySwapState st.gs uid hi.toNat dc ds
                              log := st.log ++ [⟨uid, LogAction.swap⟩] },
                   Except.ok none)
              | _, _ => (st, Except.error GameError.validation)
        | ActionType.discard =>
          match p.drawn_card, p.drawn_source with
          | some dc, some ds =>
            (advanceTurn
              { st with gs := applyDiscardState st.gs dc ds
                        log := st.log ++ [⟨uid, LogAction.discard⟩] },
             Except.ok none)
          | _, _ => (st, Except.error GameError.validation)
      else (st, Except.error GameError.invalidState)
    else (st, Except.error GameError.unauthorized)
  else (st, Except.error GameError.unauthorized)

/-- callDutch of src/hooks/useGameState.ts: writes the caller into
rooms.dutch_caller, sets the phase to dutch_round and logs the action. -/
def callDutch (uid : PlayerId) (st : ServerState) : ServerState :=
  { st with room := { st.room with dutch_caller := some uid }
            gs := { st.gs with phase := Phase.dutch_round }
            log := st.log ++ [⟨uid, LogAction.dutch⟩] }

/-- handleDutchCall of src/pages/GameRoom.tsx: the call is issued only when it
is the caller's turn, the phase is playing and no drawn card is pending;
otherwise nothing happens. -/
def handleDutchCall (uid : PlayerId) (held : Option (Card × Source))
    (st : ServerState) : ServerState :=
  if st.room.current_turn = some uid ∧ st.gs.phase = Phase.playing ∧ held = none then
    callDutch uid st
  else st

/-- endMemorizingPhase of src/hooks/useGameState.ts: phase becomes playing and
every revealed set is cleared. -/
def endMemorizingPhase (st : ServerState) : ServerState :=
  { st with gs := { st.gs with phase := Phase.playing, revealed_cards := [] } }

/-- Claim C3: an action request from a player who does not hold the turn is
rejected as unauthorized and the stored state is returned exactly as it was,
whatever the requested action. -/
theorem action_requires_turn (st : ServerState) (uid : PlayerId) (p : ActionPayload)
    (hturn : st.room.current_turn ≠ some uid) :
    runAction st uid p = (st, Except.error GameError.unauthorized) := by
  unfold runAction
  by_cases hm : uid ∈ st.members
  · rw [if_pos hm, if_neg hturn]
  · rw [if_neg hm]

/-- A concrete state where it is bob's turn. -/
def stC3 : ServerState :=
  { members := ["alice", "bob"]
    room := { status := RoomStatus.playing, current_turn := some "bob",
              dutch_caller := none }
    gs := gsC1
    log := [] }

/-- Witness for claim C3: alice's draw request on bob's turn is rejected as
unauthorized with the state unchanged. -/
theorem action_requires_turn_witness :
    runAction stC3 "alice" ⟨ActionType.draw, some Source.deck, none, none, none⟩
      = (stC3, Except.error GameError.unauthorized) :=
  action_requires_turn stC3 "alice"
    ⟨ActionType.draw, some Source.deck, none, none, none⟩ (by decide)

/-- Claim C4: with dutchCaller D set and the current player at index i of the
member list, a turn advance finishes the game (phase finished, room status
finished, current turn untouched) exactly when the member at position
(i + 1) mod playerCount is D, and otherwise leaves phase and status untouched
and moves the turn to that member. -/
theorem advanceTurn_dutch_termination (st : ServerState) (D c : PlayerId) (i : Nat)
    (hD : st.room.dutch_caller = some D)
    (hc : st.room.current_turn = some c)
    (hi : findIdxA st.members c = some i) :
    (st.members.getD ((i + 1) % st.members.length) "" = D →
      (advanceTurn st).gs.phase = Phase.finished ∧
      (advanceTurn st).room.status = RoomStatus.finished ∧
      (advanceTurn st).room.current_turn = st.room.current_turn) ∧
    (st.members.getD ((i + 1) % st.members.length) "" ≠ D →
      (advanceTurn st).gs.phase = st.gs.phase ∧
      (advanceTurn st).room.status = st.room.status ∧
      (advanceTurn st).room.current_turn
        = some (st.members.getD ((i + 1) % st.members.length) "")) := by
  have hne : st.members ≠ [] := by
    intro h
    rw [h] at hi
    exact Option.noConfusion hi
  have hnext : nextIndexOf st.members st.room.current_turn
      = (i + 1) % st.members.length := by
    simp only [nextIndexOf, hc, hi]
  constructor
  · intro heq
    have hcond : st.room.dutch_caller
        = some (st.members.getD (nextIndexOf st.members st.room.current_turn) "") := by
      rw [hnext, heq, hD]
    unfold advanceTurn
    rw [if_neg hne, if_pos hcond]
    exact ⟨rfl, rfl, rfl⟩
  · intro hneq
    have hcond : ¬(st.room.dutch_caller
        = some (st.members.getD (nextIndexOf st.members st.room.current_turn) "")) := by
      rw [hnext, hD]
      intro hcon
      injection hcon with hcon
      exact hneq hcon.symm
    unfold advanceTurn
    rw [if_neg hne, if_neg hcond]
    refine ⟨rfl, rfl, ?_⟩
    rw [hnext]

/-- A concrete state in the dutch round: two members, alice called dutch,
bob holds the turn, so the next advance cycles back to the caller. -/
def stC4 : ServerState :=
  { members := ["alice", "bob"]
    room := { status := RoomStatus.playing, current_turn := some "bob",
              dutch_caller := some "alice" }
    gs := { gsC1 with phase := Phase.dutch_round }
    log := [] }

/-- Witness for claim C4: advancing the turn past bob would hand the turn back
to the caller alice, so the game finishes and the turn is not moved. -/
theorem advanceTurn_dutch_termination_witness :
    (advanceTurn stC4).gs.phase = Phase.finished ∧
    (advanceTurn stC4).room.status = RoomStatus.finished ∧
    (advanceTurn stC4).room.current_turn = stC4.room.current_turn :=
  (advanceTurn_dutch_termination stC4 "alice" "bob" 1 (by decide) (by decide)
    (by decide)).1 (by decide)

theorem advanceTurn_frame (st : ServerState) :
    (advanceTurn st).members = st.members ∧
    (advanceTurn st).gs.deck = st.gs.deck ∧
    (advanceTurn st).gs.discard_pile = st.gs.discard_pile ∧
    (advanceTurn st).gs.player_hands = st.gs.player_hands ∧
    (advanceTurn st).gs.revealed_cards = st.gs.revealed_cards ∧
    (advanceTurn st).room.dutch_caller = st.room.dutch_caller ∧
    ((advanceTurn st).gs.phase = st.gs.phase ∨
      (advanceTurn st).gs.phase = Phase.finished) := by
  unfold advanceTurn
  by_cases hne : st.members = []
  · rw [if_pos hne]
    exact ⟨rfl, rfl, rfl, rfl, rfl, rfl, Or.inl rfl⟩
  · rw [if_neg hne]
    by_cases hd : st.room.dutch_caller
        = some (st.members.getD (nextIndexOf st.members st.room.current_turn) "")
    · rw [if_pos hd]
      exact ⟨rfl, rfl, rfl, rfl, rfl, rfl, Or.inr rfl⟩
    · rw [if_neg hd]
      exact ⟨rfl, rfl, rfl, rfl, rfl, rfl, Or.inl rfl⟩

theorem totalCards_advanceTurn (st : ServerState) :
    totalCards (advanceTurn st).gs = totalCards st.gs := by
  obtain ⟨-, h1, h2, h3, -, -, -⟩ := advanceTurn_frame st
  simp [totalCards, h1, h2, h3]

theorem lookupA_setA_self {α : Type} (l : List (PlayerId × α)) (k : PlayerId) (v : α) :
    lookupA (setA l k v) k = some v := by
  induction l with
  | nil => simp [setA, lookupA]
  | cons e es ih =>
    by_cases he : e.1 = k
    · simp [setA, he, lookupA]
    · simp [setA, he, lookupA, ih]

theorem lookupA_setA_ne {α : Type} (l : List (PlayerId × α)) (k q : PlayerId) (v : α)
    (hq : q ≠ k) :
    lookupA (setA l k v) q = lookupA l q := by
  have hq2 : k ≠ q := Ne.symm hq
  induction l with
  | nil => simp [setA, lookupA, hq2]
  | cons e es ih =>
    by_cases he : e.1 = k
    · simp [setA, he, lookupA, hq2]
    · simp [setA, he, lookupA, ih]

theorem handsTotal_setA (hands : List (PlayerId × List Card)) (uid : PlayerId)
    (h v : List Card) (hh : lookupA hands uid = some h) (hl : v.length = h.length) :
    handsTotal (setA hands uid v) = handsTotal hands := by
  induction hands with
  | nil => exact absurd hh (by simp [lookupA])
  | cons e es ih =>
    by_cases he : e.1 = uid
    · have he2 : e.2 = h := by
        have := hh
        simp only [lookupA, if_pos he] at this
        exact Option.some.injEq _ _ ▸ this
      simp [setA, he, handsTotal_cons, he2, hl]
    · have hh2 : lookupA es uid = some h := by
        simpa [lookupA, he] using hh
      simp [setA, he, handsTotal_cons, ih hh2]

theorem getLast?_ne_nil (l : List Card) (c : Card) (h : l.getLast? = some c) :
    l ≠ [] := by
  intro hnil
  rw [hnil] at h
  exact Option.noConfusion h

theorem applySwapState_phase (gs : GameStateRow) (uid : PlayerId) (i : Nat)
    (dc : Card) (ds : Source) : (applySwapState gs uid i dc ds).phase = gs.phase := by
  cases ds <;> rfl

theorem applyDiscardState_phase (gs : GameStateRow) (dc : Card) (ds : Source) :
    (applyDiscardState gs dc ds).phase = gs.phase := by
  cases ds <;> rfl

theorem totalCards_applySwapState (gs : GameStateRow) (uid : PlayerId) (i : Nat)
    (dc : Card) (ds : Source) (h : List Card)
    (hh : lookupA gs.player_hands uid = some h) (hi : i < h.length)
    (hpile : pileOf gs ds ≠ []) :
    totalCards (applySwapState gs uid i dc ds) = totalCards gs := by
  have hset : handsTotal (setA gs.player_hands uid (h.set i dc))
      = handsTotal gs.player_hands :=
    handsTotal_setA gs.player_hands uid h (h.set i dc) hh (by rw [List.length_set])
  cases ds with
  | deck =>
    have hpos : 0 < gs.deck.length := List.length_pos.mpr hpile
    simp only [applySwapState, totalCards, hh, Option.getD_some]
    rw [hset]
    simp only [List.length_dropLast, List.length_append, List.length_cons,
      List.length_nil]
    omega
  | discard =>
    have hpos : 0 < gs.discard_pile.length := List.length_pos.mpr hpile
    simp only [applySwapState, totalCards, hh, Option.getD_some]
    rw [hset]
    simp only [List.length_dropLast, List.length_append, List.length_cons,
      List.length_nil]
    omega

theorem totalCards_applyDiscardState (gs : GameStateRow) (dc : Card) (ds : Source)
    (hpile : pileOf gs ds ≠ []) :
    totalCards (applyDiscardState gs dc ds) = totalCards gs := by
  cases ds with
  | deck =>
    have hpos : 0 < gs.deck.length := List.length_pos.mpr hpile
    simp only [applyDiscardState, totalCards, List.length_dropLast,
      List.length_append, List.length_cons, List.length_nil]
    omega
  | discard => rfl

/-- The whole state one room's game runs over: the server-side record plus the
acting player's transient drawn card (the drawnCard state of
src/hooks/useGameState.ts, cleared when a swap or discard resolves). -/
structure SysState where
  server : ServerState
  held : Option (Card × Source)
deriving DecidableEq

/-- Names for the operations of the protocol. -/
inductive Label
  | endMem
  | draw (src : Source)
  | swapAct (i : Nat)
  | discardAct
  | dutch
deriving DecidableEq

/-- One step of the game protocol, as the clients and the edge function
execute it: end-memorizing is issued by the host only during the memorizing
phase (the countdown effect of GameRoom.tsx); draw, swap and discard pass the
edge-function guards (membership, turn, playing status), a draw needs no
pending drawn card and a nonempty pile and only records the transient held
card, swap and discard resolve the held card (the client echoes it in the
request) and then advance the turn; a dutch call passes the handleDutchCall
guard (caller's turn, playing phase, no pending drawn card). -/
inductive Step : SysState → Label → SysState → Prop
  | endMem (st : SysState)
      (hphase : st.server.gs.phase = Phase.memorizing) :
      Step st Label.endMem ⟨endMemorizingPhase st.server, st.held⟩
  | draw (st : SysState) (uid : PlayerId) (src : Source) (c : Card)
      (hheld : st.held = none)
      (hmem : uid ∈ st.server.members)
      (hturn : st.server.room.current_turn = some uid)
      (hstatus : st.server.room.status = RoomStatus.playing)
      (hpile : (pileOf st.server.gs src).getLast? = some c) :
      Step st (Label.draw src)
        ⟨{ st.server with log := st.server.log ++ [⟨uid, LogAction.draw⟩] },
         some (c, src)⟩
  | swapAct (st : SysState) (uid : PlayerId) (c : Card) (src : Source) (i : Nat)
      (hheld : st.held = some (c, src))
      (hmem : uid ∈ st.server.members)
      (hturn : st.server.room.current_turn = some uid)
      (hstatus : st.server.room.status = RoomStatus.playing)
      (hidx : i < ((lookupA st.server.gs.player_hands uid).getD []).length) :
      Step st (Label.swapAct i)
        ⟨advanceTurn
          { st.server with gs := applySwapState st.server.gs uid i c src
                           log := st.server.log ++ [⟨uid, LogAction.swap⟩] },
         none⟩
  | discardAct (st : SysState) (uid : PlayerId) (c : Card) (src : Source)
      (hheld : st.held = some (c, src))
      (hmem : uid ∈ st.server.members)
      (hturn : st.server.room.current_turn = some uid)
      (hstatus : st.server.room.status = RoomStatus.playing) :
      Step st Label.discardAct
        ⟨advanceTurn
          { st.server with gs := applyDiscardState st.server.gs c src
                           log := st.server.log ++ [⟨uid, LogAction.discard⟩] },
         none⟩
  | dutch (st : SysState) (uid : PlayerId)
      (hheld : st.held = none)
      (hturn : st.server.room.current_turn = some uid)
      (hphase : st.server.gs.phase = Phase.playing) :
      Step st Label.dutch ⟨callDutch uid st.server, none⟩

/-- A deck produced by createDeck from some random source. -/
def IsShuffledDeck (deck : List Card) : Prop :=
  ∃ rand : Nat → Nat, deck = createDeck rand

/-- A state of a running game: started by the host (startGame sets the room to
playing with the first member as current turn; a fresh room has no dutch
caller) with the dealt state of initializeGame over a shuffled full deck, the
member count within the 2..6 bound of the rooms table and member ids unique
(the room_players key), followed by protocol steps. -/
inductive Reachable : SysState → Prop
  | init (deck : List Card) (players : List PlayerId) (log : List LogEntry)
      (gs : GameStateRow)
      (hdeck : IsShuffledDeck deck)
      (h2 : 2 ≤ players.length) (h6 : players.length ≤ 6)
      (hnodup : players.Nodup)
      (hinit : initializeGame deck players = some gs) :
      Reachable (SysState.mk (ServerState.mk players
        (Room.mk RoomStatus.playing (some (players.getD 0 "")) none) gs log) none)
  | step (st : SysState) (l : Label) (st2 : SysState)
      (h1 : Reachable st) (h2 : Step st l st2) : Reachable st2

/-- The inductive invariant: the 52-card count, a pending drawn card always
comes from a pile that is still nonempty (the draw did not remove it), and a
set dutch caller means the phase has already left playing. -/
def Inv (st : SysState) : Prop :=
  totalCards st.server.gs = 52 ∧
  (∀ c src, st.held = some (c, src) → pileOf st.server.gs src ≠ []) ∧
  (∀ d, st.server.room.dutch_caller = some d →
    st.server.gs.phase = Phase.dutch_round ∨ st.server.gs.phase = Phase.finished)

theorem dutch_phase_preserved (A : ServerState)
    (hA : ∀ d, A.room.dutch_caller = some d →
      A.gs.phase = Phase.dutch_round ∨ A.gs.phase = Phase.finished) :
    ∀ d, (advanceTurn A).room.dutch_caller = some d →
      (advanceTurn A).gs.phase = Phase.dutch_round ∨
      (advanceTurn A).gs.phase = Phase.finished := by
  intro d hd
  obtain ⟨-, -, -, -, -, hdc, hph⟩ := advanceTurn_frame A
  rw [hdc] at hd
  rcases hph with hp | hp
  · rw [hp]
    exact hA d hd
  · rw [hp]
    exact Or.inr rfl

theorem totalCards_swap_commit (A : ServerState) (uid : PlayerId) (i : Nat)
    (c : Card) (src : Source) (lg : List LogEntry) (h0 : List Card)
    (hlk : lookupA A.gs.player_hands uid = some h0) (hidx : i < h0.length)
    (hpile : pileOf A.gs src ≠ []) :
    totalCards (advanceTurn
      { A with gs := applySwapState A.gs uid i c src, log := lg }).gs
      = totalCards A.gs := by
  rw [totalCards_advanceTurn]
  show totalCards (applySwapState A.gs uid i c src) = totalCards A.gs
  exact totalCards_applySwapState A.gs uid i c src h0 hlk hidx hpile

theorem totalCards_discard_commit (A : ServerState) (c : Card) (src : Source)
    (lg : List LogEntry) (hpile : pileOf A.gs src ≠ []) :
    totalCards (advanceTurn
      { A with gs := applyDiscardState A.gs c src, log := lg }).gs
      = totalCards A.gs := by
  rw [totalCards_advanceTurn]
  show totalCards (applyDiscardState A.gs c src) = totalCards A.gs
  exact totalCards_applyDiscardState A.gs c src hpile

theorem step_inv (st : SysState) (l : Label) (st2 : SysState)
    (hInv : Inv st) (h : Step st l st2) : Inv st2 := by
  obtain ⟨htot, hheldInv, hdcInv⟩ := hInv
  cases h with
  | endMem hphase =>
    refine ⟨htot, ?_, ?_⟩
    · intro c2 src2 hc2
      exact hheldInv c2 src2 hc2
    · intro d hd
      have hph := hdcInv d hd
      rw [hphase] at hph
      rcases hph with h1 | h1
      · exact Phase.noConfusion h1
      · exact Phase.noConfusion h1
  | draw uid src c hheld hmem hturn hstatus hpile =>
    refine ⟨htot, ?_, ?_⟩
    · intro c2 src2 hc2
      injection hc2 with hc2
      rw [Prod.mk.injEq] at hc2
      obtain ⟨rfl, rfl⟩ := hc2
      exact getLast?_ne_nil _ c hpile
    · intro d hd
      exact hdcInv d hd
  | swapAct uid c src i hheld hmem hturn hstatus hidx =>
    have hlk : ∃ h0, lookupA st.server.gs.player_hands uid = some h0 ∧
        i < h0.length := by
      cases hl : lookupA st.server.gs.player_hands uid with
      | none =>
        rw [hl] at hidx
        simp at hidx
      | some h0 =>
        rw [hl] at hidx
        exact ⟨h0, rfl, by simpa using hidx⟩
    obtain ⟨h0, hl, hi0⟩ := hlk
    refine ⟨?_, ?_, ?_⟩
    · exact (totalCards_swap_commit st.server uid i c src
        (st.server.log ++ [⟨uid, LogAction.swap⟩]) h0 hl hi0
        (hheldInv c src hheld)).trans htot
    · intro c2 src2 hc2
      exact Option.noConfusion hc2
    · refine dutch_phase_preserved _ ?_
      intro d hd
      show (applySwapState st.server.gs uid i c src).phase = Phase.dutch_round ∨
        (applySwapState st.server.gs uid i c src).phase = Phase.finished
      rw [applySwapState_phase]
      exact hdcInv d hd
  | discardAct uid c src hheld hmem hturn hstatus =>
    refine ⟨?_, ?_, ?_⟩
    · exact (totalCards_discard_commit st.server c src
        (st.server.log ++ [⟨uid, LogAction.discard⟩])
        (hheldInv c src hheld)).trans htot
    · intro c2 src2 hc2
      exact Option.noConfusion hc2
    · refine dutch_phase_preserved _ ?_
      intro d hd
      show (applyDiscardState st.server.gs c src).phase = Phase.dutch_round ∨
        (applyDiscardState st.server.gs c src).phase = Phase.finished
      rw [applyDiscardState_phase]
      exact hdcInv d hd
  | dutch uid hheld hturn hphase =>
    refine ⟨htot, ?_, ?_⟩
    · intro c2 src2 hc2
      exact Option.noConfusion hc2
    · intro d _
      exact Or.inl rfl

theorem reachable_inv (st : SysState) (h : Reachable st) : Inv st := by
  induction h with
  | init deck players log gs hdeck h2 h6 hnodup hinit =>
    have hlen : deck.length = 52 := by
      obtain ⟨rand, hr⟩ := hdeck
      rw [hr]
      exact createDeck_length rand
    refine ⟨?_, ?_, ?_⟩
    · exact totalCards_initializeGame deck players gs hlen h2 h6 hinit
    · intro c src hc
      exact Option.noConfusion hc
    · intro d hd
      exact Option.noConfusion hd
  | step st l st2 h1 h2 ih => exact step_inv st l st2 ih h2

/-- Claim C2: every reachable game state holds exactly 52 cards across the
deck, the discard pile and the players' hands, and every protocol step
(the deal is the base case of reachability; draw, swap, discard, dutch call
and end-memorizing are the steps) preserves that total. -/
theorem card_conservation :
    (∀ st : SysState, Reachable st → totalCards st.server.gs = 52) ∧
    (∀ (st : SysState) (l : Label) (st2 : SysState), Reachable st →
      Step st l st2 → totalCards st2.server.gs = totalCards st.server.gs) := by
  constructor
  · intro st h
    exact (reachable_inv st h).1
  · intro st l st2 h hstep
    have ha := (reachable_inv st h).1
    have hb := (reachable_inv st2 (Reachable.step st l st2 h hstep)).1
    rw [ha, hb]

/-- A concrete random source (the identity leaves the deck unshuffled). -/
def rand0 : Nat → Nat := fun i => i

/-- A concrete shuffled deck. -/
def deck0 : List Card := createDeck rand0

/-- Two concrete players. -/
def players0 : List PlayerId := ["alice", "bob"]

/-- The dealt state for the two concrete players over deck0, exactly the
record initializeGame produces. -/
def gs0 : GameStateRow :=
  { phase := Phase.memorizing
    deck := deck0.drop 9
    discard_pile := (deck0.drop 8).take 1
    player_hands := dealHands deck0 players0 0
    revealed_cards := [("alice", [0, 3]), ("bob", [0, 3])] }

/-- The system state right after the host started the two-player game. -/
def st0 : SysState :=
  SysState.mk (ServerState.mk players0
    (Room.mk RoomStatus.playing (some "alice") none) gs0 []) none

/-- Witness for claim C2: the freshly dealt two-player state carries 52
cards. -/
theorem card_conservation_witness : totalCards gs0 = 52 := by
  have h : Reachable st0 :=
    Reachable.init deck0 players0 [] gs0 ⟨rand0, rfl⟩ (by decide) (by decide)
      (by decide) rfl
  exact card_conservation.1 st0 h

/-- Claim C5: on a reachable state, a dutch call that the code accepts (it is
the caller's turn, the phase is playing, no drawn card is pending) finds
dutchCaller still null and sets dutchCaller to the caller and the phase to
dutch_round; under any other condition the call is dropped and the state (in
particular dutchCaller and the phase) is exactly unchanged. -/
theorem dutch_call_guard (st : SysState) (P : PlayerId) (hr : Reachable st) :
    ((st.server.room.current_turn = some P ∧ st.server.gs.phase = Phase.playing ∧
        st.held = none) →
      st.server.room.dutch_caller = none ∧
      (handleDutchCall P st.held st.server).room.dutch_caller = some P ∧
      (handleDutchCall P st.held st.server).gs.phase = Phase.dutch_round) ∧
    (¬(st.server.room.current_turn = some P ∧ st.server.gs.phase = Phase.playing ∧
        st.held = none) →
      handleDutchCall P st.held st.server = st.server) := by
  constructor
  · intro hg
    have hinv := (reachable_inv st hr).2.2
    have hnone : st.server.room.dutch_caller = none := by
      cases hdc : st.server.room.dutch_caller with
      | none => rfl
      | some d =>
        have hph := hinv d hdc
        rw [hg.2.1] at hph
        rcases hph with h1 | h1
        · exact Phase.noConfusion h1
        · exact Phase.noConfusion h1
    refine ⟨hnone, ?_, ?_⟩
    · unfold handleDutchCall
      rw [if_pos hg]
      rfl
    · unfold handleDutchCall
      rw [if_pos hg]
      rfl
  · intro hg
    unfold handleDutchCall
    rw [if_neg hg]

/-- The state after the memorizing countdown ended on st0. -/
def st1 : SysState := SysState.mk (endMemorizingPhase st0.server) st0.held

/-- Witness for claim C5: on the reachable playing-phase state st1, alice's
accepted dutch call finds dutchCaller null and sets it to alice with phase
dutch_round. -/
theorem dutch_call_guard_witness :
    st1.server.room.dutch_caller = none ∧
    (handleDutchCall "alice" st1.held st1.server).room.dutch_caller = some "alice" ∧
    (handleDutchCall "alice" st1.held st1.server).gs.phase = Phase.dutch_round := by
  have h0 : Reachable st0 :=
    Reachable.init deck0 players0 [] gs0 ⟨rand0, rfl⟩ (by decide) (by decide)
      (by decide) rfl
  have h1 : Reachable st1 :=
    Reachable.step st0 Label.endMem st1 h0 (Step.endMem st0 rfl)
  exact (dutch_call_guard st1 "alice" h1).1 ⟨rfl, rfl, rfl⟩

/-- Position of a phase along the forward order
memorizing, playing, dutch_round, finished. -/
def phaseRank : Phase → Nat
  | Phase.memorizing => 0
  | Phase.playing => 1
  | Phase.dutch_round => 2
  | Phase.finished => 3

theorem phaseRank_le_three (p : Phase) : phaseRank p ≤ 3 := by
  cases p <;> decide

/-- Claim C6: every protocol operation (end-memorizing, dutch call, and the
turn advance run by swap and discard; draw changes nothing) moves the phase
only forward along memorizing, playing, dutch_round, finished, never back. -/
theorem phase_monotone (st : SysState) (l : Label) (st2 : SysState)
    (h : Step st l st2) :
    phaseRank st.server.gs.phase ≤ phaseRank st2.server.gs.phase := by
  cases h with
  | endMem hphase =>
    rw [hphase]
    show phaseRank Phase.memorizing ≤ phaseRank Phase.playing
    decide
  | draw uid src c hheld hmem hturn hstatus hpile =>
    exact Nat.le_refl _
  | swapAct uid c src i hheld hmem hturn hstatus hidx =>
    rcases (advanceTurn_frame _).2.2.2.2.2.2 with hp | hp
    · rw [hp]
      show phaseRank st.server.gs.phase
        ≤ phaseRank (applySwapState st.server.gs uid i c src).phase
      rw [applySwapState_phase]
    · rw [hp]
      exact phaseRank_le_three _
  | discardAct uid c src hheld hmem hturn hstatus =>
    rcases (advanceTurn_frame _).2.2.2.2.2.2 with hp | hp
    · rw [hp]
      show phaseRank st.server.gs.phase
        ≤ phaseRank (applyDiscardState st.server.gs c src).phase
      rw [applyDiscardState_phase]
    · rw [hp]
      exact phaseRank_le_three _
  | dutch uid hheld hturn hphase =>
    rw [hphase]
    show phaseRank Phase.playing ≤ phaseRank Phase.dutch_round
    decide

/-- Witness for claim C6: the end-memorizing step on the dealt state st0 moves
the phase forward. -/
theorem phase_monotone_witness :
    phaseRank st0.server.gs.phase
      ≤ phaseRank (endMemorizingPhase st0.server).gs.phase :=
  phase_monotone st0 Label.endMem
    (SysState.mk (endMemorizingPhase st0.server) st0.held) (Step.endMem st0 rfl)

/-- Claim C7: a successful draw writes nothing into the stored game state (the
deck, the discard pile, every hand, the revealed sets and the phase are as
before, and the room row is untouched; only the action log grows and the drawn
card is handed back transiently), and while a drawn card is pending every
possible step either is the resolving swap or discard or leaves the deck, the
discard pile and the hands unchanged. -/
theorem draw_writes_nothing :
    (∀ (st : SysState) (src : Source) (st2 : SysState),
      Step st (Label.draw src) st2 →
      st2.server.gs = st.server.gs ∧ st2.server.room = st.server.room) ∧
    (∀ (st : SysState) (l : Label) (st2 : SysState), st.held ≠ none →
      Step st l st2 →
      (∃ i, l = Label.swapAct i) ∨ l = Label.discardAct ∨
      (st2.server.gs.deck = st.server.gs.deck ∧
       st2.server.gs.discard_pile = st.server.gs.discard_pile ∧
       st2.server.gs.player_hands = st.server.gs.player_hands)) := by
  constructor
  · intro st src st2 h
    cases h with
    | draw uid src c hheld hmem hturn hstatus hpile => exact ⟨rfl, rfl⟩
  · intro st l st2 hheld h
    cases h with
    | endMem hphase => exact Or.inr (Or.inr ⟨rfl, rfl, rfl⟩)
    | draw uid src c hh hmem hturn hstatus hpile => exact absurd hh hheld
    | swapAct uid c src i hh hmem hturn hstatus hidx => exact Or.inl ⟨i, rfl⟩
    | discardAct uid c src hh hmem hturn hstatus => exact Or.inr (Or.inl rfl)
    | dutch uid hh hturn hphase => exact absurd hh hheld

/-- The system state over stC3 with no drawn card pending. -/
def stC7 : SysState := SysState.mk stC3 none

/-- Witness for claim C7: bob's draw of the deck top of stC7 leaves the stored
game state and the room row unchanged. -/
theorem draw_writes_nothing_witness :
    ({ stC7.server with log := stC7.server.log ++ [⟨"bob", LogAction.draw⟩] }
        : ServerState).gs = stC7.server.gs ∧
    ({ stC7.server with log := stC7.server.log ++ [⟨"bob", LogAction.draw⟩] }
        : ServerState).room = stC7.server.room :=
  draw_writes_nothing.1 stC7 Source.deck
    (SysState.mk
      { stC7.server with log := stC7.server.log ++ [⟨"bob", LogAction.draw⟩] }
      (some (⟨Suit.clubs, Rank.five⟩, Source.deck)))
    (Step.draw stC7 "bob" Source.deck ⟨Suit.clubs, Rank.five⟩ rfl (by decide)
      rfl rfl (by decide))

/-- Claim C10: the game-state write of a successful swap by player P at a
valid index replaces exactly one card of P's hand in place: every other
player's stored hand is unchanged, P's hand keeps its length, and the phase
and the revealed sets are untouched (beside P's hand entry only the deck and
the discard pile are written). -/
theorem swap_frame (gs : GameStateRow) (uid : PlayerId) (i : Nat) (dc : Card)
    (ds : Source) (h : List Card)
    (hhand : lookupA gs.player_hands uid = some h) (hi : i < h.length) :
    (∀ q, q ≠ uid →
      lookupA (applySwapState gs uid i dc ds).player_hands q
        = lookupA gs.player_hands q) ∧
    lookupA (applySwapState gs uid i dc ds).player_hands uid = some (h.set i dc) ∧
    (h.set i dc).length = h.length ∧
    (applySwapState gs uid i dc ds).phase = gs.phase ∧
    (applySwapState gs uid i dc ds).revealed_cards = gs.revealed_cards := by
  have hhands : (applySwapState gs uid i dc ds).player_hands
      = setA gs.player_hands uid (h.set i dc) := by
    cases ds <;> simp [applySwapState, hhand]
  refine ⟨?_, ?_, List.length_set h i dc, applySwapState_phase gs uid i dc ds, ?_⟩
  · intro q hq
    rw [hhands, lookupA_setA_ne gs.player_hands uid q (h.set i dc) hq]
  · rw [hhands, lookupA_setA_self]
  · cases ds <;> rfl

/-- Witness for claim C10: bob's swap at index 0 of gsC1 leaves alice's hand
entry, the phase and the revealed sets unchanged and rewrites bob's hand in
place. -/
theorem swap_frame_witness :
    lookupA (applySwapState gsC1 "bob" 0 ⟨Suit.hearts, Rank.three⟩
        Source.deck).player_hands "alice" = lookupA gsC1.player_hands "alice" ∧
    lookupA (applySwapState gsC1 "bob" 0 ⟨Suit.hearts, Rank.three⟩
        Source.deck).player_hands "bob"
      = some ([⟨Suit.diamonds, Rank.king⟩, ⟨Suit.clubs, Rank.two⟩].set 0
          ⟨Suit.hearts, Rank.three⟩) ∧
    (applySwapState gsC1 "bob" 0 ⟨Suit.hearts, Rank.three⟩
        Source.deck).phase = gsC1.phase := by
  have h := swap_frame gsC1 "bob" 0 ⟨Suit.hearts, Rank.three⟩ Source.deck
    [⟨Suit.diamonds, Rank.king⟩, ⟨Suit.clubs, Rank.two⟩] (by decide) (by decide)
  exact ⟨h.1 "alice" (by decide), h.2.1, h.2.2.2.1⟩

theorem runAction_draw_eq (st : ServerState) (uid : PlayerId) (src : Source)
    (c : Card)
    (hmem : uid ∈ st.members) (hturn : st.room.current_turn = some uid)
    (hstatus : st.room.status = RoomStatus.playing)
    (hpile : (pileOf st.gs src).getLast? = some c) :
    runAction st uid (ActionPayload.mk ActionType.draw (some src) none none none)
      = ({ st with log := st.log ++ [⟨uid, LogAction.draw⟩] },
         Except.ok (some c)) := by
  unfold runAction
  rw [if_pos hmem, if_pos hturn, if_pos hstatus]
  simp only [hpile]

theorem runAction_swap_eq (st : ServerState) (uid : PlayerId) (i : Nat)
    (dc : Card) (ds : Source)
    (hmem : uid ∈ st.members) (hturn : st.room.current_turn = some uid)
    (hstatus : st.room.status = RoomStatus.playing)
    (hidx : i < ((lookupA st.gs.player_hands uid).getD []).length) :
    runAction st uid (ActionPayload.mk ActionType.swap none (some (i : Int))
        (some dc) (some ds))
      = (advanceTurn { st with gs := applySwapState st.gs uid i dc ds
                               log := st.log ++ [⟨uid, LogAction.swap⟩] },
         Except.ok none) := by
  unfold runAction
  rw [if_pos hmem, if_pos hturn, if_pos hstatus]
  have h1 : ¬((i : Int) < 0) := by omega
  have h2 : ¬(((lookupA st.gs.player_hands uid).getD []).length ≤ i) := by omega
  simp only [if_neg h1, Int.toNat_ofNat, if_neg h2]

theorem nextIndexOf_lt (members : List PlayerId) (cur : Option PlayerId)
    (hne : members ≠ []) : nextIndexOf members cur < members.length := by
  have hpos : 0 < members.length := List.length_pos.mpr hne
  unfold nextIndexOf
  cases cur with
  | none => exact hpos
  | some c =>
    cases hfi : findIdxA members c with
    | none =>
      simp only [hfi]
      exact hpos
    | some j =>
      simp only [hfi]
      exact Nat.mod_lt _ hpos

theorem getD_mem (l : List PlayerId) (n : Nat) (d : PlayerId) (h : n < l.length) :
    l.getD n d ∈ l := by
  induction l generalizing n with
  | nil => simp at h
  | cons x xs ih =>
    cases n with
    | zero => exact List.mem_cons_self x xs
    | succ m =>
      refine List.mem_cons_of_mem x (ih m ?_)
      rw [List.length_cons] at h
      omega

theorem advanceTurn_no_caller (A : ServerState) (hne : A.members ≠ [])
    (hcaller : A.room.dutch_caller = none) :
    advanceTurn A = { A with room := { A.room with
      current_turn :=
        some (A.members.getD (nextIndexOf A.members A.room.current_turn) "") } } := by
  have hcond : ¬(A.room.dutch_caller
      = some (A.members.getD (nextIndexOf A.members A.room.current_turn) "")) := by
    rw [hcaller]
    intro hcon
    exact Option.noConfusion hcon
  unfold advanceTurn
  rw [if_neg hne, if_neg hcond]

theorem advance_then_draw (M : ServerState) (q : PlayerId) (w : Card)
    (hne : M.members ≠ [])
    (hcaller : M.room.dutch_caller = none)
    (hstatus : M.room.status = RoomStatus.playing)
    (hq : q = M.members.getD (nextIndexOf M.members M.room.current_turn) "")
    (hpile : M.gs.discard_pile.getLast? = some w) :
    (runAction (advanceTurn M) q
      (ActionPayload.mk ActionType.draw (some Source.discard) none none none)).2
      = Except.ok (some w) := by
  have hqmem : q ∈ (advanceTurn M).members := by
    rw [(advanceTurn_frame M).1, hq]
    exact getD_mem M.members (nextIndexOf M.members M.room.current_turn) ""
      (nextIndexOf_lt M.members M.room.current_turn hne)
  have hqturn : (advanceTurn M).room.current_turn = some q := by
    rw [advanceTurn_no_caller M hne hcaller, hq]
  have hqstatus : (advanceTurn M).room.status = RoomStatus.playing := by
    rw [advanceTurn_no_caller M hne hcaller]
    exact hstatus
  have hqpile : (pileOf (advanceTurn M).gs Source.discard).getLast? = some w := by
    show (advanceTurn M).gs.discard_pile.getLast? = some w
    rw [(advanceTurn_frame M).2.2.1]
    exact hpile
  rw [runAction_draw_eq (advanceTurn M) q Source.discard w hqmem hqturn hqstatus
    hqpile]

/-- The server state after a draw from the deck and a swap at index i resolve
through the game-action edge function (the draw writes only the log; the swap
commit then advances the turn). -/
def stAfterSwap (st : ServerState) (p : PlayerId) (i : Nat) (C : Card) :
    ServerState :=
  (runAction
    (runAction st p
      (ActionPayload.mk ActionType.draw (some Source.deck) none none none)).1 p
    (ActionPayload.mk ActionType.swap none (some (i : Int)) (some C)
      (some Source.deck))).1

/-- Claim C8 amended: drawing a card C from the deck and swapping it into hand
index i leaves C at index i of the hand and pushes the card previously at
index i (the displaced card) onto the top of the discard pile; the next draw
from the discard pile, with no other action in between (and no dutch caller
set), therefore yields that displaced card, not C. -/
theorem swap_roundtrip_amended (st : ServerState) (p : PlayerId) (h : List Card)
    (i : Nat) (C : Card)
    (hmem : p ∈ st.members)
    (hturn : st.room.current_turn = some p)
    (hstatus : st.room.status = RoomStatus.playing)
    (hcaller : st.room.dutch_caller = none)
    (hdeck : st.gs.deck.getLast? = some C)
    (hhand : lookupA st.gs.player_hands p = some h)
    (hi : i < h.length) :
    (runAction st p (ActionPayload.mk ActionType.draw (some Source.deck)
        none none none)).2 = Except.ok (some C) ∧
    lookupA (stAfterSwap st p i C).gs.player_hands p = some (h.set i C) ∧
    (stAfterSwap st p i C).gs.discard_pile.getLast? = some (h.getD i default) ∧
    (runAction (stAfterSwap st p i C)
        (st.members.getD (nextIndexOf st.members (some p)) "")
        (ActionPayload.mk ActionType.draw (some Source.discard) none none none)).2
      = Except.ok (some (h.getD i default)) := by
  have hne : st.members ≠ [] := by
    intro hnil
    rw [hnil] at hmem
    exact List.not_mem_nil p hmem
  have hd1 := runAction_draw_eq st p Source.deck C hmem hturn hstatus hdeck
  have hidx1 : i < ((lookupA st.gs.player_hands p).getD []).length := by
    rw [hhand]
    simpa using hi
  have hs := runAction_swap_eq
    { st with log := st.log ++ [⟨p, LogAction.draw⟩] } p i C Source.deck
    hmem hturn hstatus hidx1
  have hM_hands : (applySwapState st.gs p i C Source.deck).player_hands
      = setA st.gs.player_hands p (h.set i C) := by
    simp [applySwapState, hhand]
  have hM_discard : (applySwapState st.gs p i C Source.deck).discard_pile
      = st.gs.discard_pile ++ [h.getD i default] := by
    simp [applySwapState, hhand]
  refine ⟨by rw [hd1], ?_, ?_, ?_⟩
  · simp only [stAfterSwap, hd1, hs]
    rw [(advanceTurn_frame _).2.2.2.1]
    show lookupA (applySwapState st.gs p i C Source.deck).player_hands p
      = some (h.set i C)
    rw [hM_hands, lookupA_setA_self]
  · simp only [stAfterSwap, hd1, hs]
    rw [(advanceTurn_frame _).2.2.1]
    show (applySwapState st.gs p i C Source.deck).discard_pile.getLast?
      = some (h.getD i default)
    rw [hM_discard, List.getLast?_concat]
  · simp only [stAfterSwap, hd1, hs]
    refine advance_then_draw _ _ _ hne hcaller hstatus ?_ ?_
    · show st.members.getD (nextIndexOf st.members (some p)) ""
        = st.members.getD (nextIndexOf st.members st.room.current_turn) ""
      rw [hturn]
    · show (applySwapState st.gs p i C Source.deck).discard_pile.getLast?
        = some (h.getD i default)
      rw [hM_discard, List.getLast?_concat]

/-- The drawn deck-top card of the C8 scenario. -/
def cardC : Card := ⟨Suit.hearts, Rank.ace⟩

/-- The hand card at index 0 that the swap displaces in the C8 scenario. -/
def cardK : Card := ⟨Suit.spades, Rank.king⟩

/-- Alice's hand in the C8 scenario. -/
def handC8 : List Card :=
  [cardK, ⟨Suit.hearts, Rank.two⟩, ⟨Suit.hearts, Rank.three⟩,
   ⟨Suit.hearts, Rank.four⟩]

/-- A concrete mid-game state on alice's turn with cardC on top of the deck
and cardK at index 0 of alice's hand. -/
def stC8 : ServerState :=
  { members := ["alice", "bob"]
    room := { status := RoomStatus.playing, current_turn := some "alice",
              dutch_caller := none }
    gs := { phase := Phase.playing
            deck := [⟨Suit.clubs, Rank.four⟩, cardC]
            discard_pile := [⟨Suit.diamonds, Rank.seven⟩]
            player_hands := [("alice", handC8),
              ("bob", [⟨Suit.spades, Rank.two⟩, ⟨Suit.spades, Rank.three⟩,
                ⟨Suit.spades, Rank.four⟩, ⟨Suit.spades, Rank.five⟩])]
            revealed_cards := [] }
    log := [] }

/-- Counterexample to claim C8 as stated: on stC8, alice draws cardC from the
deck and swaps it into index 0; the next draw from the discard pile obtains
the displaced cardK, which is not cardC. -/
theorem swap_roundtrip_counterexample :
    (runAction stC8 "alice" (ActionPayload.mk ActionType.draw (some Source.deck)
        none none none)).2 = Except.ok (some cardC) ∧
    (runAction (stAfterSwap stC8 "alice" 0 cardC) "bob"
        (ActionPayload.mk ActionType.draw (some Source.discard) none none none)).2
      = Except.ok (some cardK) ∧
    cardK ≠ cardC := by
  refine ⟨rfl, rfl, by decide⟩

/-- Witness for the amended claim C8: on stC8 the draw yields cardC, the swap
leaves cardC at index 0 and cardK on top of the discard pile, and the next
draw from the discard pile yields cardK. -/
theorem swap_roundtrip_amended_witness :
    (runAction stC8 "alice" (ActionPayload.mk ActionType.draw (some Source.deck)
        none none none)).2 = Except.ok (some cardC) ∧
    lookupA (stAfterSwap stC8 "alice" 0 cardC).gs.player_hands "alice"
      = some (handC8.set 0 cardC) ∧
    (stAfterSwap stC8 "alice" 0 cardC).gs.discard_pile.getLast?
      = some (handC8.getD 0 default) ∧
    (runAction (stAfterSwap stC8 "alice" 0 cardC)
        (stC8.members.getD (nextIndexOf stC8.members (some "alice")) "")
        (ActionPayload.mk ActionType.draw (some Source.discard) none none none)).2
      = Except.ok (some (handC8.getD 0 default)) :=
  swap_roundtrip_amended stC8 "alice" handC8 0 cardC (by decide) rfl rfl rfl
    (by decide) (by decide) (by decide)

end Dutch
